import Mathlib

/-!
Verification of the BERT TF1-to-Keras checkpoint converter
(`official/nlp/bert/tf1_to_keras_checkpoint_converter.py`).

The transformation core is embedded shallowly:

* variable names are `String`s (lists of characters);
* Python's substring test `pat in s` is `strContains s pat`;
* Python's `s.replace(src, tgt)` (replace all non-overlapping occurrences,
  scanning left to right) is `strReplace s src tgt`;
* tensors are represented by their shapes (`List Nat`), since the converter
  only ever inspects and rewrites shapes;
* a Python `IndexError` (e.g. `shape[1]` on a 1-D shape) is `Except.error ()`;
* Python dictionaries are association lists with insert-or-overwrite
  (`dictInsert`), which preserves Python's key semantics and insertion order.
-/

/-- Decides whether `p` is a prefix of `l` (character-wise equality). -/
def isPrefixList : List Char → List Char → Bool
  | [], _ => true
  | _ :: _, [] => false
  | a :: as, b :: bs => if a = b then isPrefixList as bs else false

/-- Decides whether `p` occurs as a contiguous sublist of `l`; this is the
meaning of Python's `p in l` on strings. -/
def isSubList (p : List Char) : List Char → Bool
  | [] => p.isEmpty
  | b :: bs => isPrefixList p (b :: bs) || isSubList p bs

/-- Python's `pat in s` substring test. -/
def strContains (s pat : String) : Bool :=
  isSubList pat.data s.data

/-- Replacement loop for a non-empty pattern, structurally recursive on a fuel
argument (the fuel is always instantiated with the length of the scanned list,
which suffices because each step consumes at least one character).  Mirrors
Python `str.replace`: scan left to right, replace each non-overlapping
occurrence of `src` by `tgt`. -/
def replFuel : Nat → List Char → List Char → List Char → List Char
  | _, [], _, _ => []
  | 0, l, _, _ => l
  | fuel + 1, c :: rest, src, tgt =>
    if isPrefixList src (c :: rest) then
      tgt ++ replFuel fuel ((c :: rest).drop src.length) src tgt
    else
      c :: replFuel fuel rest src tgt

/-- Python `str.replace` with an empty pattern inserts the replacement before
every character and at the end of the string. -/
def pyReplaceEmpty : List Char → List Char → List Char
  | [], tgt => tgt
  | c :: rest, tgt => tgt ++ c :: pyReplaceEmpty rest tgt

/-- Python `str.replace` on character lists. -/
def pyReplace (l src tgt : List Char) : List Char :=
  if src.isEmpty then pyReplaceEmpty l tgt else replFuel l.length l src tgt

/-- Python `s.replace(src, tgt)`. -/
def strReplace (s src tgt : String) : String :=
  ⟨pyReplace s.data src.data tgt.data⟩

/-- Helper for `pySplitComma`: accumulates the current field (reversed). -/
def splitCommaAux : List Char → List Char → List String
  | [], cur => [⟨cur.reverse⟩]
  | c :: rest, cur =>
    if c = ',' then ⟨cur.reverse⟩ :: splitCommaAux rest [] else splitCommaAux rest (c :: cur)

/-- Python `s.split(",")`: empty fields are kept, so a leading, trailing or
doubled comma yields an empty-string field. -/
def pySplitComma (s : String) : List String :=
  splitCommaAux s.data []

/-- `BERT_NAME_REPLACEMENTS` ("v1" rule table) from the source. -/
def BERT_NAME_REPLACEMENTS : List (String × String) :=
  [("bert", "bert_model"),
   ("embeddings/word_embeddings", "word_embeddings/embeddings"),
   ("embeddings/token_type_embeddings", "embedding_postprocessor/type_embeddings"),
   ("embeddings/position_embeddings", "embedding_postprocessor/position_embeddings"),
   ("embeddings/LayerNorm", "embedding_postprocessor/layer_norm"),
   ("attention/self", "self_attention"),
   ("attention/output/dense", "self_attention_output"),
   ("attention/output/LayerNorm", "self_attention_layer_norm"),
   ("intermediate/dense", "intermediate"),
   ("output/dense", "output"),
   ("output/LayerNorm", "output_layer_norm"),
   ("pooler/dense", "pooler_transform")]

/-- `BERT_V2_NAME_REPLACEMENTS` ("v2" rule table) from the source. -/
def BERT_V2_NAME_REPLACEMENTS : List (String × String) :=
  [("bert/", ""),
   ("encoder", "transformer"),
   ("embeddings/word_embeddings", "word_embeddings/embeddings"),
   ("embeddings/token_type_embeddings", "type_embeddings/embeddings"),
   ("embeddings/position_embeddings", "position_embedding/embeddings"),
   ("embeddings/LayerNorm", "embeddings/layer_norm"),
   ("attention/self", "self_attention"),
   ("attention/output/dense", "self_attention_output"),
   ("attention/output/LayerNorm", "self_attention_layer_norm"),
   ("intermediate/dense", "intermediate"),
   ("output/dense", "output"),
   ("output/LayerNorm", "output_layer_norm"),
   ("pooler/dense", "pooler_transform")]

/-- `_bert_name_replacement`: apply each rule of the selected table, in table
order, to the current (possibly already rewritten) name.  The `use_v2` flag
(`FLAGS.use_v2_names`) selects the table. -/
def _bert_name_replacement (use_v2 : Bool) (var_name : String) : String :=
  let name_replacements :=
    if use_v2 then BERT_V2_NAME_REPLACEMENTS else BERT_NAME_REPLACEMENTS
  name_replacements.foldl
    (fun vn rule => if strContains vn rule.1 then strReplace vn rule.1 rule.2 else vn)
    var_name

/-- `_has_exclude_patterns`: true when some pattern occurs in the name. -/
def _has_exclude_patterns (name : String) (exclude_patterns : List String) : Bool :=
  exclude_patterns.any (fun p => strContains name p)

/-- The local `patterns` list of `_get_new_shape`. -/
def reshape_patterns : List String :=
  ["attention/self/query", "attention/self/value", "attention/self/key"]

/-- The `for pattern in patterns` loop of `_get_new_shape`.  `Except.error ()`
models the `IndexError` that Python raises when the shape has fewer dimensions
than the matched rule indexes. -/
def qkv_reshape (name : String) (shape : List Nat) (num_heads : Nat) :
    List String → Except Unit (Option (List Nat))
  | [] => .ok none
  | p :: ps =>
    if strContains name p then
      if strContains name "kernel" then
        match shape with
        | s0 :: s1 :: _ => .ok (some [s0, num_heads, s1 / num_heads])
        | _ => .error ()
      else if strContains name "bias" then
        match shape with
        | s0 :: _ => .ok (some [num_heads, s0 / num_heads])
        | _ => .error ()
      else qkv_reshape name shape num_heads ps
    else qkv_reshape name shape num_heads ps

/-- `_get_new_shape`: decides whether a variable must be reshaped and computes
the new shape.  `Except.error ()` models an `IndexError` on a too-short shape;
`.ok none` is Python's `None` (no reshape). -/
def _get_new_shape (name : String) (shape : List Nat) (num_heads : Nat) :
    Except Unit (Option (List Nat)) :=
  if strContains name "attention/output/dense/kernel" then
    match shape with
    | s0 :: s1 :: _ => .ok (some [num_heads, s0 / num_heads, s1])
    | _ => .error ()
  else if strContains name "attention/output/dense/bias" then
    .ok (some shape)
  else
    qkv_reshape name shape num_heads reshape_patterns

/-- The two dictionaries built by `convert_names`: `new_variable_map` maps the
rewritten name to the (possibly reshaped) tensor, represented by its shape;
`conversion_map` is the rename audit (old name to new name, renamed variables
only). -/
structure ConvResult where
  new_variable_map : List (String × List Nat)
  conversion_map : List (String × String)
deriving DecidableEq, Repr

/-- Python dictionary insertion: overwrite in place when the key is present
(keeping its position), append otherwise. -/
def dictInsert {α : Type} (m : List (String × α)) (k : String) (v : α) :
    List (String × α) :=
  if m.any (fun p => p.1 = k) then
    m.map (fun p => if p.1 = k then (k, v) else p)
  else
    m ++ [(k, v)]

/-- The keys of an association list, in insertion order. -/
def dictKeys {α : Type} (m : List (String × α)) : List String :=
  m.map Prod.fst

/-- The guard `if exclude_patterns and _has_exclude_patterns(var_name, ...)`:
`None` and the empty list are falsy in Python, so an absent or empty pattern
list excludes nothing. -/
def excludedBy (exclude_patterns : Option (List String)) (var_name : String) : Bool :=
  match exclude_patterns with
  | none => false
  | some ps => !ps.isEmpty && _has_exclude_patterns var_name ps

/-- One iteration of the `for var_name in name_shape_map` loop of
`convert_names`.  `num_heads` is `FLAGS.num_heads` (an integer, `-1` disables
reshaping); under the `num_heads > 0` guard it is a positive natural, hence
the `Int.toNat` coercion.  `if new_shape:` is Python truthiness on a tuple,
false for `None` and for the empty tuple. -/
def convertStep (use_v2 : Bool) (num_heads : Int)
    (exclude_patterns : Option (List String)) (acc : ConvResult)
    (entry : String × List Nat) : Except Unit ConvResult :=
  if excludedBy exclude_patterns entry.1 then .ok acc
  else
    match (if 0 < num_heads then
             _get_new_shape entry.1 entry.2 num_heads.toNat
           else .ok none) with
    | .error err => .error err
    | .ok new_shape =>
      let new_var_name := _bert_name_replacement use_v2 entry.1
      let tensor_shape :=
        match new_shape with
        | some s => if s.isEmpty then entry.2 else s
        | none => entry.2
      .ok { new_variable_map := dictInsert acc.new_variable_map new_var_name tensor_shape,
            conversion_map :=
              if new_var_name ≠ entry.1 then
                dictInsert acc.conversion_map entry.1 new_var_name
              else acc.conversion_map }

/-- The variable loop of `convert_names`, threading the two dictionaries. -/
def convert_loop (use_v2 : Bool) (num_heads : Int)
    (exclude_patterns : Option (List String)) :
    ConvResult → List (String × List Nat) → Except Unit ConvResult
  | acc, [] => .ok acc
  | acc, e :: rest =>
    match convertStep use_v2 num_heads exclude_patterns acc e with
    | .error err => .error err
    | .ok acc1 => convert_loop use_v2 num_heads exclude_patterns acc1 rest

/-- `convert_names`: the transformation core, abstracted over checkpoint I/O.
The source checkpoint is the list of `(name, shape)` pairs in enumeration
order; the result holds the two dictionaries the source builds. -/
def convert_names (use_v2 : Bool) (num_heads : Int)
    (exclude_patterns : Option (List String))
    (name_shape_map : List (String × List Nat)) : Except Unit ConvResult :=
  convert_loop use_v2 num_heads exclude_patterns ⟨[], []⟩ name_shape_map

/-- The `exclude_patterns` handling of `main`: the flag is split on commas
only when it is a non-empty string (Python truthiness). -/
def exclude_patterns_of_flag (flag : Option String) : Option (List String) :=
  match flag with
  | none => none
  | some s => if s = "" then none else some (pySplitComma s)

deriving instance DecidableEq for Except

/-! ### Lemmas about the string primitives -/

theorem isPrefixList_iff (p : List Char) :
    ∀ l, isPrefixList p l = true ↔ ∃ t, l = p ++ t := by
  induction p with
  | nil => intro l; simp [isPrefixList]
  | cons a as ih =>
    intro l
    cases l with
    | nil => simp [isPrefixList]
    | cons b bs =>
      rcases eq_or_ne a b with rfl | hab
      · simp [isPrefixList, ih]
      · simp [isPrefixList, hab, Ne.symm hab]

theorem isSubList_iff (p : List Char) :
    ∀ l, isSubList p l = true ↔ ∃ pre post, l = pre ++ p ++ post := by
  intro l
  induction l with
  | nil =>
    simp only [isSubList, List.isEmpty_iff]
    constructor
    · rintro rfl; exact ⟨[], [], rfl⟩
    · rintro ⟨pre, post, h⟩
      rcases List.append_eq_nil.mp h.symm with ⟨h1, h2⟩
      exact (List.append_eq_nil.mp h1).2
  | cons b bs ih =>
    simp only [isSubList, Bool.or_eq_true, isPrefixList_iff, ih]
    constructor
    · rintro (⟨t, ht⟩ | ⟨pre, post, h⟩)
      · exact ⟨[], t, by simpa using ht⟩
      · exact ⟨b :: pre, post, by simp [h]⟩
    · rintro ⟨pre, post, h⟩
      cases pre with
      | nil => exact Or.inl ⟨post, by simpa using h⟩
      | cons c cs =>
        right
        rw [List.cons_append, List.cons_append, List.cons.injEq] at h
        exact ⟨cs, post, h.2⟩

theorem isSubList_nil : ∀ l : List Char, isSubList [] l = true := by
  intro l
  cases l with
  | nil => rfl
  | cons b bs => simp [isSubList, isPrefixList]

theorem strContains_iff (s pat : String) :
    strContains s pat = true ↔ ∃ pre post, s.data = pre ++ pat.data ++ post :=
  isSubList_iff pat.data s.data

theorem strContains_trans {n b a : String} (hnb : strContains n b = true)
    (hba : strContains b a = true) : strContains n a = true := by
  rw [strContains_iff] at hnb hba ⊢
  rcases hnb with ⟨l, r, hl⟩
  rcases hba with ⟨l2, r2, hl2⟩
  exact ⟨l ++ l2, r2 ++ r, by rw [hl, hl2]; simp⟩

theorem strContains_empty (s : String) : strContains s "" = true :=
  isSubList_nil s.data

/-! ### Lemmas about the dictionary model -/

theorem mem_dictInsert {α : Type} (m : List (String × α)) (k : String) (v : α)
    (a : String) (b : α) :
    (a, b) ∈ dictInsert m k v ↔ (a = k ∧ b = v) ∨ (a ≠ k ∧ (a, b) ∈ m) := by
  unfold dictInsert
  by_cases h : m.any (fun p => p.1 = k) = true
  · rw [if_pos h]
    rcases List.any_eq_true.mp h with ⟨q, hq, hq1⟩
    have hq1 : q.1 = k := by simpa using hq1
    constructor
    · intro hm
      rcases List.mem_map.mp hm with ⟨p, hp, hf⟩
      by_cases hp1 : p.1 = k
      · rw [if_pos hp1] at hf
        injection hf with h1 h2
        exact Or.inl ⟨h1.symm, h2.symm⟩
      · rw [if_neg hp1] at hf
        subst hf
        exact Or.inr ⟨by simpa using hp1, hp⟩
    · rintro (⟨rfl, rfl⟩ | ⟨hne, hmem⟩)
      · exact List.mem_map.mpr ⟨q, hq, by simp [hq1]⟩
      · exact List.mem_map.mpr ⟨(a, b), hmem, by simp [hne]⟩
  · rw [if_neg h]
    have hall : ∀ p ∈ m, p.1 ≠ k := by
      intro p hp
      by_contra hc
      exact h (List.any_eq_true.mpr ⟨p, hp, by simpa using hc⟩)
    simp only [List.mem_append, List.mem_singleton]
    constructor
    · rintro (hmem | heq)
      · exact Or.inr ⟨hall _ hmem, hmem⟩
      · injection heq with h1 h2
        exact Or.inl ⟨h1, h2⟩
    · rintro (⟨rfl, rfl⟩ | ⟨hne, hmem⟩)
      · exact Or.inr rfl
      · exact Or.inl hmem

theorem mem_dictKeys {α : Type} (m : List (String × α)) (k : String) :
    k ∈ dictKeys m ↔ ∃ v, (k, v) ∈ m := by
  simp only [dictKeys, List.mem_map]
  constructor
  · rintro ⟨p, hp, rfl⟩; exact ⟨p.2, hp⟩
  · rintro ⟨v, hv⟩; exact ⟨(k, v), hv, rfl⟩

theorem mem_dictKeys_insert {α : Type} (m : List (String × α)) (k : String) (v : α)
    (a : String) :
    a ∈ dictKeys (dictInsert m k v) ↔ a = k ∨ a ∈ dictKeys m := by
  simp only [mem_dictKeys, mem_dictInsert]
  by_cases hak : a = k
  · subst hak; simp
  · simp [hak]

/-! ### Lemmas about one conversion step -/

theorem convertStep_ok_cases (u : Bool) (nh : Int) (ep : Option (List String))
    (acc acc1 : ConvResult) (e : String × List Nat)
    (h : convertStep u nh ep acc e = .ok acc1) :
    (excludedBy ep e.1 = true ∧ acc1 = acc) ∨
    (excludedBy ep e.1 = false ∧ ∃ ts,
      acc1 = ⟨dictInsert acc.new_variable_map (_bert_name_replacement u e.1) ts,
              if _bert_name_replacement u e.1 ≠ e.1 then
                dictInsert acc.conversion_map e.1 (_bert_name_replacement u e.1)
              else acc.conversion_map⟩) := by
  unfold convertStep at h
  by_cases hex : excludedBy ep e.1 = true
  · rw [if_pos hex] at h
    injection h with h
    exact Or.inl ⟨hex, h.symm⟩
  · rw [if_neg hex] at h
    right
    refine ⟨by simpa using hex, ?_⟩
    cases hm : (if 0 < nh then _get_new_shape e.1 e.2 nh.toNat else .ok none) with
    | error err => rw [hm] at h; cases h
    | ok ns =>
      rw [hm] at h
      injection h with h
      exact ⟨_, h.symm⟩

theorem convertStep_nonpos (u : Bool) (nh : Int) (ep : Option (List String))
    (acc : ConvResult) (e : String × List Nat) (hnh : nh ≤ 0) :
    convertStep u nh ep acc e =
      if excludedBy ep e.1 then .ok acc
      else .ok ⟨dictInsert acc.new_variable_map (_bert_name_replacement u e.1) e.2,
                if _bert_name_replacement u e.1 ≠ e.1 then
                  dictInsert acc.conversion_map e.1 (_bert_name_replacement u e.1)
                else acc.conversion_map⟩ := by
  have hlt : ¬ (0 : Int) < nh := by omega
  unfold convertStep
  by_cases hex : excludedBy ep e.1 = true
  · rw [if_pos hex, if_pos hex]
  · rw [if_neg hex, if_neg hex, if_neg hlt]

theorem convertStep_ep_congr (u : Bool) (nh : Int) (ep ep' : Option (List String))
    (acc : ConvResult) (e : String × List Nat)
    (h : excludedBy ep e.1 = excludedBy ep' e.1) :
    convertStep u nh ep acc e = convertStep u nh ep' acc e := by
  unfold convertStep
  rw [h]

/-! ### Invariants of the conversion loop -/

theorem convert_loop_keys (u : Bool) (nh : Int) (ep : Option (List String)) :
    ∀ (ckpt : List (String × List Nat)) (acc r : ConvResult),
      convert_loop u nh ep acc ckpt = .ok r →
      ∀ k, k ∈ dictKeys r.new_variable_map ↔
        (k ∈ dictKeys acc.new_variable_map ∨
         ∃ e, e ∈ ckpt ∧ excludedBy ep e.1 = false ∧
              _bert_name_replacement u e.1 = k) := by
  intro ckpt
  induction ckpt with
  | nil =>
    intro acc r h k
    injection h with h
    subst h
    simp
  | cons e rest ih =>
    intro acc r h k
    simp only [convert_loop] at h
    cases hstep : convertStep u nh ep acc e with
    | error err => rw [hstep] at h; cases h
    | ok acc1 =>
      rw [hstep] at h
      have hmain := ih acc1 r h k
      rcases convertStep_ok_cases u nh ep acc acc1 e hstep with ⟨hex, rfl⟩ | ⟨hex, ts, rfl⟩
      · rw [hmain]
        constructor
        · rintro (hk | ⟨f, hf, hfex, hfrew⟩)
          · exact Or.inl hk
          · exact Or.inr ⟨f, List.mem_cons_of_mem _ hf, hfex, hfrew⟩
        · rintro (hk | ⟨f, hf, hfex, hfrew⟩)
          · exact Or.inl hk
          · rcases List.mem_cons.mp hf with rfl | hf2
            · rw [hex] at hfex; cases hfex
            · exact Or.inr ⟨f, hf2, hfex, hfrew⟩
      · rw [hmain]
        simp only [mem_dictKeys_insert]
        constructor
        · rintro ((rfl | hk) | ⟨f, hf, hfex, hfrew⟩)
          · exact Or.inr ⟨e, List.mem_cons_self _ _, hex, rfl⟩
          · exact Or.inl hk
          · exact Or.inr ⟨f, List.mem_cons_of_mem _ hf, hfex, hfrew⟩
        · rintro (hk | ⟨f, hf, hfex, hfrew⟩)
          · exact Or.inl (Or.inr hk)
          · rcases List.mem_cons.mp hf with rfl | hf2
            · exact Or.inl (Or.inl hfrew.symm)
            · exact Or.inr ⟨f, hf2, hfex, hfrew⟩

theorem convert_loop_audit (u : Bool) (nh : Int) (ep : Option (List String)) :
    ∀ (ckpt : List (String × List Nat)) (acc r : ConvResult),
      convert_loop u nh ep acc ckpt = .ok r →
      ∀ o n, (o, n) ∈ r.conversion_map →
        ((o, n) ∈ acc.conversion_map ∨
         ((∃ s, (o, s) ∈ ckpt) ∧ excludedBy ep o = false ∧
          _bert_name_replacement u o = n ∧ n ≠ o)) := by
  intro ckpt
  induction ckpt with
  | nil =>
    intro acc r h o n hmem
    injection h with h
    subst h
    exact Or.inl hmem
  | cons e rest ih =>
    intro acc r h o n hmem
    simp only [convert_loop] at h
    cases hstep : convertStep u nh ep acc e with
    | error err => rw [hstep] at h; cases h
    | ok acc1 =>
      rw [hstep] at h
      rcases ih acc1 r h o n hmem with hacc1 | ⟨⟨s, hs⟩, hoex, horew, hne⟩
      · rcases convertStep_ok_cases u nh ep acc acc1 e hstep with ⟨hex, rfl⟩ | ⟨hex, ts, rfl⟩
        · exact Or.inl hacc1
        · simp only at hacc1
          by_cases hrw : _bert_name_replacement u e.1 ≠ e.1
          · rw [if_pos hrw] at hacc1
            rcases (mem_dictInsert _ _ _ _ _).mp hacc1 with ⟨rfl, rfl⟩ | ⟨hne2, hold⟩
            · exact Or.inr ⟨⟨e.2, List.mem_cons_self _ _⟩, hex, rfl, hrw⟩
            · exact Or.inl hold
          · rw [if_neg hrw] at hacc1
            exact Or.inl hacc1
      · exact Or.inr ⟨⟨s, List.mem_cons_of_mem _ hs⟩, hoex, horew, hne⟩

theorem convert_loop_nvm_nonpos (u : Bool) (nh : Int) (ep : Option (List String))
    (hnh : nh ≤ 0) :
    ∀ (ckpt : List (String × List Nat)) (acc r : ConvResult),
      convert_loop u nh ep acc ckpt = .ok r →
      ∀ k v, (k, v) ∈ r.new_variable_map →
        ((k, v) ∈ acc.new_variable_map ∨
         ∃ e, e ∈ ckpt ∧ excludedBy ep e.1 = false ∧
              _bert_name_replacement u e.1 = k ∧ v = e.2) := by
  intro ckpt
  induction ckpt with
  | nil =>
    intro acc r h k v hmem
    injection h with h
    subst h
    exact Or.inl hmem
  | cons e rest ih =>
    intro acc r h k v hmem
    simp only [convert_loop] at h
    rw [convertStep_nonpos u nh ep acc e hnh] at h
    by_cases hex : excludedBy ep e.1 = true
    · rw [if_pos hex] at h
      rcases ih acc r h k v hmem with hacc | ⟨f, hf, hfex, hfrew, hfv⟩
      · exact Or.inl hacc
      · exact Or.inr ⟨f, List.mem_cons_of_mem _ hf, hfex, hfrew, hfv⟩
    · rw [if_neg hex] at h
      rcases ih _ r h k v hmem with hacc | ⟨f, hf, hfex, hfrew, hfv⟩
      · simp only at hacc
        rcases (mem_dictInsert _ _ _ _ _).mp hacc with ⟨rfl, rfl⟩ | ⟨hne2, hold⟩
        · exact Or.inr ⟨e, List.mem_cons_self _ _, by simpa using hex, rfl, rfl⟩
        · exact Or.inl hold
      · exact Or.inr ⟨f, List.mem_cons_of_mem _ hf, hfex, hfrew, hfv⟩

/-! ### Lemmas about the query/key/value reshape loop -/

theorem qkv_reshape_ok_some (name : String) (shape : List Nat) (hc : Nat) :
    ∀ (ps : List String) (s : List Nat),
      qkv_reshape name shape hc ps = .ok (some s) →
      (strContains name "kernel" = true ∧
        ∃ s0 s1 rest, shape = s0 :: s1 :: rest ∧ s = [s0, hc, s1 / hc]) ∨
      (strContains name "kernel" = false ∧ strContains name "bias" = true ∧
        ∃ s0 rest, shape = s0 :: rest ∧ s = [hc, s0 / hc]) := by
  intro ps
  induction ps with
  | nil => intro s h; cases h
  | cons p ps ih =>
    intro s h
    simp only [qkv_reshape] at h
    by_cases hp : strContains name p = true
    · rw [if_pos hp] at h
      by_cases hk : strContains name "kernel" = true
      · rw [if_pos hk] at h
        left
        refine ⟨hk, ?_⟩
        cases shape with
        | nil => cases h
        | cons s0 t =>
          cases t with
          | nil => cases h
          | cons s1 rest =>
            injection h with h
            injection h with h
            exact ⟨s0, s1, rest, rfl, h.symm⟩
      · rw [if_neg hk] at h
        by_cases hb : strContains name "bias" = true
        · rw [if_pos hb] at h
          right
          refine ⟨by simpa using hk, hb, ?_⟩
          cases shape with
          | nil => cases h
          | cons s0 rest =>
            injection h with h
            injection h with h
            exact ⟨s0, rest, rfl, h.symm⟩
        · rw [if_neg hb] at h
          exact ih s h
    · rw [if_neg hp] at h
      exact ih s h

theorem qkv_reshape_kernel (name : String) (s0 s1 : Nat) (rest : List Nat) (hc : Nat)
    (hk : strContains name "kernel" = true) :
    ∀ (ps : List String) (p : String), p ∈ ps → strContains name p = true →
      qkv_reshape name (s0 :: s1 :: rest) hc ps = .ok (some [s0, hc, s1 / hc]) := by
  intro ps
  induction ps with
  | nil => intro p hp; cases hp
  | cons q qs ih =>
    intro p hp hcont
    by_cases hq : strContains name q = true
    · simp only [qkv_reshape, if_pos hq, if_pos hk]
    · rcases List.mem_cons.mp hp with rfl | hp2
      · exact absurd hcont hq
      · simp only [qkv_reshape, if_neg hq]
        exact ih p hp2 hcont

theorem qkv_reshape_bias (name : String) (s0 : Nat) (rest : List Nat) (hc : Nat)
    (hk : strContains name "kernel" = false) (hb : strContains name "bias" = true) :
    ∀ (ps : List String) (p : String), p ∈ ps → strContains name p = true →
      qkv_reshape name (s0 :: rest) hc ps = .ok (some [hc, s0 / hc]) := by
  intro ps
  induction ps with
  | nil => intro p hp; cases hp
  | cons q qs ih =>
    intro p hp hcont
    by_cases hq : strContains name q = true
    · have hkneg : ¬ (strContains name "kernel" = true) := by simp [hk]
      simp only [qkv_reshape, if_pos hq, if_neg hkneg, if_pos hb]
    · rcases List.mem_cons.mp hp with rfl | hp2
      · exact absurd hcont hq
      · simp only [qkv_reshape, if_neg hq]
        exact ih p hp2 hcont

/-! ### Exclusion-filter lemmas for the conversion loop -/

theorem excludedBy_cons_ne_nil (ps : List String) (hps : ps ≠ []) (n : String) :
    excludedBy (some ps) n = _has_exclude_patterns n ps := by
  cases ps with
  | nil => exact absurd rfl hps
  | cons p ps => simp [excludedBy, List.isEmpty]

theorem convert_loop_filter (u : Bool) (nh : Int) (ps : List String) (hps : ps ≠ []) :
    ∀ (ckpt : List (String × List Nat)) (acc : ConvResult),
      convert_loop u nh (some ps) acc ckpt =
      convert_loop u nh none acc
        (ckpt.filter (fun e => !(_has_exclude_patterns e.1 ps))) := by
  intro ckpt
  induction ckpt with
  | nil => intro acc; rfl
  | cons e rest ih =>
    intro acc
    by_cases hh : _has_exclude_patterns e.1 ps = true
    · have hex : excludedBy (some ps) e.1 = true := by
        rw [excludedBy_cons_ne_nil ps hps]; exact hh
      have hfil : (e :: rest).filter (fun f => !(_has_exclude_patterns f.1 ps)) =
          rest.filter (fun f => !(_has_exclude_patterns f.1 ps)) := by
        simp [List.filter_cons, hh]
      rw [hfil]
      simp only [convert_loop, convertStep, hex, if_true]
      exact ih acc
    · have hex : excludedBy (some ps) e.1 = false := by
        rw [excludedBy_cons_ne_nil ps hps]; simpa using hh
      have hfil : (e :: rest).filter (fun f => !(_has_exclude_patterns f.1 ps)) =
          e :: rest.filter (fun f => !(_has_exclude_patterns f.1 ps)) := by
        simp [List.filter_cons, hh]
      rw [hfil]
      simp only [convert_loop]
      rw [convertStep_ep_congr u nh (some ps) none acc e (by rw [hex]; rfl)]
      cases hstep : convertStep u nh none acc e with
      | error err => rfl
      | ok acc1 => exact ih acc1

theorem convert_loop_some_nil_eq_none (u : Bool) (nh : Int) :
    ∀ (ckpt : List (String × List Nat)) (acc : ConvResult),
      convert_loop u nh (some []) acc ckpt = convert_loop u nh none acc ckpt := by
  intro ckpt
  induction ckpt with
  | nil => intro acc; rfl
  | cons e rest ih =>
    intro acc
    simp only [convert_loop]
    rw [convertStep_ep_congr u nh (some []) none acc e rfl]
    cases hstep : convertStep u nh none acc e with
    | error err => rfl
    | ok acc1 => exact ih acc1

theorem convert_loop_empty_pattern (u : Bool) (nh : Int) (ps : List String)
    (hmem : "" ∈ ps) :
    ∀ (ckpt : List (String × List Nat)) (acc : ConvResult),
      convert_loop u nh (some ps) acc ckpt = .ok acc := by
  intro ckpt
  induction ckpt with
  | nil => intro acc; rfl
  | cons e rest ih =>
    intro acc
    have hex : excludedBy (some ps) e.1 = true := by
      rw [excludedBy_cons_ne_nil ps (List.ne_nil_of_mem hmem)]
      exact List.any_eq_true.mpr ⟨"", hmem, strContains_empty e.1⟩
    simp only [convert_loop, convertStep, hex, if_true]
    exact ih acc

/-! ### Claim theorems -/

/-- C1 counterexample: under v1 rules, for the checkpoint with variables
`bert` and `bert_model`, the rename audit contains the entry
`(bert_model, bert_model_model)` whose OLD name `bert_model` is a key of
`new_variable_map` (being the rewritten name of `bert`), so the claimed
unconditional absence of audit keys from `new_variable_map` is false. -/
theorem audit_old_name_present_cex :
    convert_names false (-1) none [("bert", [3]), ("bert_model", [3])] =
      .ok ⟨[("bert_model", [3]), ("bert_model_model", [3])],
           [("bert", "bert_model"), ("bert_model", "bert_model_model")]⟩ ∧
    ("bert_model", "bert_model_model") ∈
      [("bert", "bert_model"), ("bert_model", "bert_model_model")] ∧
    "bert_model" ∈ dictKeys [("bert_model", ([3] : List Nat)), ("bert_model_model", [3])] := by
  refine ⟨by decide, by decide, ?_⟩
  rw [mem_dictKeys]
  exact ⟨[3], by decide⟩

/-- C1 (amended): for every entry `(old, new)` of the rename audit produced by
the conversion, `new` is present among the keys of `new_variable_map`, and
`old` is among those keys if and only if some non-excluded source variable has
rewritten name `old` — so `old` is absent exactly when no variable rewrites to
it, rather than unconditionally as claimed. -/
theorem audit_consistency_amended (u : Bool) (nh : Int) (ep : Option (List String))
    (ckpt : List (String × List Nat)) (r : ConvResult)
    (h : convert_names u nh ep ckpt = .ok r) (o n : String)
    (hmem : (o, n) ∈ r.conversion_map) :
    n ∈ dictKeys r.new_variable_map ∧
    (o ∈ dictKeys r.new_variable_map ↔
      ∃ e, e ∈ ckpt ∧ excludedBy ep e.1 = false ∧
           _bert_name_replacement u e.1 = o) := by
  have hkeys : ∀ k, k ∈ dictKeys r.new_variable_map ↔
      ∃ e, e ∈ ckpt ∧ excludedBy ep e.1 = false ∧
           _bert_name_replacement u e.1 = k := by
    intro k
    have hk := convert_loop_keys u nh ep ckpt ⟨[], []⟩ r h k
    simpa [dictKeys] using hk
  have haudit : (∃ s, (o, s) ∈ ckpt) ∧ excludedBy ep o = false ∧
      _bert_name_replacement u o = n ∧ n ≠ o := by
    rcases convert_loop_audit u nh ep ckpt ⟨[], []⟩ r h o n hmem with habs | hgood
    · simp at habs
    · exact hgood
  obtain ⟨⟨s, hs⟩, hoex, horew, hne⟩ := haudit
  exact ⟨(hkeys n).mpr ⟨(o, s), hs, hoex, horew⟩, hkeys o⟩

/-- C1 witness: the amended theorem applied to the two-variable checkpoint of
the counterexample, at the audit entry `(bert, bert_model)`. -/
theorem audit_consistency_amended_inst :
    "bert_model" ∈ dictKeys [("bert_model", ([3] : List Nat)), ("bert_model_model", [3])] ∧
    ("bert" ∈ dictKeys [("bert_model", ([3] : List Nat)), ("bert_model_model", [3])] ↔
      ∃ e, e ∈ [("bert", ([3] : List Nat)), ("bert_model", [3])] ∧
           excludedBy none e.1 = false ∧ _bert_name_replacement false e.1 = "bert") :=
  audit_consistency_amended false (-1) none [("bert", [3]), ("bert_model", [3])]
    ⟨[("bert_model", [3]), ("bert_model_model", [3])],
     [("bert", "bert_model"), ("bert_model", "bert_model_model")]⟩
    (by decide) "bert" "bert_model" (by decide)

/-- C2 counterexample: a name that contains a query projection pattern AND
`kernel` but also contains `attention/output/dense/kernel` is reshaped by the
higher-precedence attention-output rule, not the claimed q/k/v kernel rule. -/
theorem qkv_kernel_precedence_cex :
    strContains "attention/self/query/attention/output/dense/kernel"
      "attention/self/query" = true ∧
    strContains "attention/self/query/attention/output/dense/kernel" "kernel" = true ∧
    _get_new_shape "attention/self/query/attention/output/dense/kernel" [768, 768] 12 =
      .ok (some [12, 64, 768]) ∧
    _get_new_shape "attention/self/query/attention/output/dense/kernel" [768, 768] 12 ≠
      .ok (some [768, 12, 64]) := by decide

/-- C2 (amended): for every name containing a query/value/key projection
pattern and `kernel`, and NOT containing the higher-precedence
`attention/output/dense/kernel` or `attention/output/dense/bias` segments,
with 2-D shape `(r, c)` and positive head count, the shape transformer returns
`(r, head_count, c / head_count)`; in particular `(768, 768)` with 12 heads
becomes `(768, 12, 64)`. -/
theorem qkv_kernel_reshape (name : String) (r c hc : Nat) (h0 : 0 < hc)
    (hq : strContains name "attention/self/query" = true ∨
          strContains name "attention/self/value" = true ∨
          strContains name "attention/self/key" = true)
    (hk : strContains name "kernel" = true)
    (haodk : strContains name "attention/output/dense/kernel" = false)
    (haodb : strContains name "attention/output/dense/bias" = false) :
    _get_new_shape name [r, c] hc = .ok (some [r, hc, c / hc]) ∧
    _get_new_shape "bert/encoder/layer_0/attention/self/query/kernel" [768, 768] 12 =
      .ok (some [768, 12, 64]) := by
  refine ⟨?_, by decide⟩
  have h1 : ¬ (strContains name "attention/output/dense/kernel" = true) := by simp [haodk]
  have h2 : ¬ (strContains name "attention/output/dense/bias" = true) := by simp [haodb]
  unfold _get_new_shape
  rw [if_neg h1, if_neg h2]
  rcases hq with hq | hq | hq
  · exact qkv_reshape_kernel name r c [] hc hk reshape_patterns
      "attention/self/query" (by decide) hq
  · exact qkv_reshape_kernel name r c [] hc hk reshape_patterns
      "attention/self/value" (by decide) hq
  · exact qkv_reshape_kernel name r c [] hc hk reshape_patterns
      "attention/self/key" (by decide) hq

/-- C2 witness: the amended theorem at the scenario input. -/
theorem qkv_kernel_reshape_inst :
    _get_new_shape "bert/encoder/layer_0/attention/self/query/kernel" [768, 768] 12 =
      .ok (some [768, 12, 64]) :=
  (qkv_kernel_reshape "bert/encoder/layer_0/attention/self/query/kernel" 768 768 12
    (by decide) (Or.inl (by decide)) (by decide) (by decide) (by decide)).1

/-- C3 counterexample: a name that contains a query projection pattern and
`bias` (and no `kernel`) but also contains `attention/output/dense/bias` hits
the higher-precedence attention-output bias rule, which returns the original
shape unchanged rather than the claimed `(head_count, d / head_count)`. -/
theorem qkv_bias_precedence_cex :
    strContains "attention/self/query/attention/output/dense/bias"
      "attention/self/query" = true ∧
    strContains "attention/self/query/attention/output/dense/bias" "bias" = true ∧
    strContains "attention/self/query/attention/output/dense/bias" "kernel" = false ∧
    _get_new_shape "attention/self/query/attention/output/dense/bias" [768] 12 =
      .ok (some [768]) ∧
    _get_new_shape "attention/self/query/attention/output/dense/bias" [768] 12 ≠
      .ok (some [12, 64]) := by decide

/-- C3 (amended): for every name containing a query/value/key projection
pattern and `bias` but not `kernel`, and NOT containing the higher-precedence
`attention/output/dense/bias` segment, with 1-D shape `(d)` and positive head
count, the shape transformer returns `(head_count, d / head_count)`, dividing
the sole original dimension; in particular `(768,)` with 12 heads becomes
`(12, 64)`. -/
theorem qkv_bias_reshape (name : String) (d hc : Nat) (h0 : 0 < hc)
    (hq : strContains name "attention/self/query" = true ∨
          strContains name "attention/self/value" = true ∨
          strContains name "attention/self/key" = true)
    (hb : strContains name "bias" = true)
    (hk : strContains name "kernel" = false)
    (haodb : strContains name "attention/output/dense/bias" = false) :
    _get_new_shape name [d] hc = .ok (some [hc, d / hc]) ∧
    _get_new_shape "bert/encoder/layer_0/attention/self/query/bias" [768] 12 =
      .ok (some [12, 64]) := by
  refine ⟨?_, by decide⟩
  have haodk : strContains name "attention/output/dense/kernel" = false := by
    by_contra hcon
    have hcon2 : strContains name "attention/output/dense/kernel" = true := by
      simpa using hcon
    have hker : strContains name "kernel" = true :=
      strContains_trans hcon2
        (by decide : strContains "attention/output/dense/kernel" "kernel" = true)
    rw [hker] at hk
    cases hk
  have h1 : ¬ (strContains name "attention/output/dense/kernel" = true) := by simp [haodk]
  have h2 : ¬ (strContains name "attention/output/dense/bias" = true) := by simp [haodb]
  unfold _get_new_shape
  rw [if_neg h1, if_neg h2]
  rcases hq with hq | hq | hq
  · exact qkv_reshape_bias name d [] hc hk hb reshape_patterns
      "attention/self/query" (by decide) hq
  · exact qkv_reshape_bias name d [] hc hk hb reshape_patterns
      "attention/self/value" (by decide) hq
  · exact qkv_reshape_bias name d [] hc hk hb reshape_patterns
      "attention/self/key" (by decide) hq

/-- C3 witness: the amended theorem at the scenario input. -/
theorem qkv_bias_reshape_inst :
    _get_new_shape "bert/encoder/layer_0/attention/self/query/bias" [768] 12 =
      .ok (some [12, 64]) :=
  (qkv_bias_reshape "bert/encoder/layer_0/attention/self/query/bias" 768 12
    (by decide) (Or.inl (by decide)) (by decide) (by decide) (by decide)).1

/-- C4: every name containing `attention/output/dense/kernel` with 2-D shape
`(r, c)` and positive head count gets new shape `(head_count, r / head_count, c)`;
moreover the match is on the original (pre-rewrite) name: the v1-rewritten name
of the concrete example no longer contains the pattern, yet its tensor is
reshaped by the full conversion. -/
theorem attention_output_kernel_reshape (name : String) (r c hc : Nat) (h0 : 0 < hc)
    (h : strContains name "attention/output/dense/kernel" = true) :
    _get_new_shape name [r, c] hc = .ok (some [hc, r / hc, c]) ∧
    convert_names false 12 none
      [("bert/encoder/layer_0/attention/output/dense/kernel", [768, 768])] =
      .ok ⟨[("bert_model/encoder/layer_0/self_attention_output/kernel", [12, 64, 768])],
           [("bert/encoder/layer_0/attention/output/dense/kernel",
             "bert_model/encoder/layer_0/self_attention_output/kernel")]⟩ ∧
    strContains "bert_model/encoder/layer_0/self_attention_output/kernel"
      "attention/output/dense/kernel" = false := by
  refine ⟨?_, by decide, by decide⟩
  unfold _get_new_shape
  rw [if_pos h]

/-- C4 witness: the theorem applied at a concrete attention-output kernel. -/
theorem attention_output_kernel_reshape_inst :
    _get_new_shape "bert/encoder/layer_0/attention/output/dense/kernel" [768, 768] 12 =
      .ok (some [12, 64, 768]) :=
  (attention_output_kernel_reshape "bert/encoder/layer_0/attention/output/dense/kernel"
    768 768 12 (by decide) (by decide)).1

/-- C5 counterexample: for the 3-D shape `(2, 3, 5)` with head count 2 (which
divides the split dimension 2), the attention-output kernel rule returns
`(2, 1, 3)`, whose element count 6 differs from the original 30 — the claimed
unconditional count preservation fails for shapes of unexpected arity. -/
theorem reshape_count_cex :
    (0 : Nat) < 2 ∧ (2 : Nat) ∣ 2 ∧
    _get_new_shape "attention/output/dense/kernel" [2, 3, 5] 2 = .ok (some [2, 1, 3]) ∧
    ([2, 1, 3] : List Nat).prod ≠ ([2, 3, 5] : List Nat).prod := by decide

/-- C5 (amended): whenever the shape transformer returns a new shape for an
input of the arity the matched rule expects — a 2-D shape whose name contains
`kernel` or does not contain `bias`, or any 1-D shape — with the positive head
count dividing each original dimension, the product of the new dimensions
equals the product of the original dimensions. -/
theorem reshape_preserves_count :
    (∀ (name : String) (r c hc : Nat) (s : List Nat), 0 < hc → hc ∣ r → hc ∣ c →
      (strContains name "kernel" = true ∨ strContains name "bias" = false) →
      _get_new_shape name [r, c] hc = .ok (some s) →
      s.prod = ([r, c] : List Nat).prod) ∧
    (∀ (name : String) (d hc : Nat) (s : List Nat), 0 < hc → hc ∣ d →
      _get_new_shape name [d] hc = .ok (some s) →
      s.prod = ([d] : List Nat).prod) := by
  constructor
  · intro name r c hc s h0 hr hc2 hkb h
    unfold _get_new_shape at h
    by_cases haodk : strContains name "attention/output/dense/kernel" = true
    · rw [if_pos haodk] at h
      simp only [Except.ok.injEq, Option.some.injEq] at h
      subst h
      simp only [List.prod_cons, List.prod_nil, mul_one, ← mul_assoc]
      rw [Nat.mul_div_cancel' hr]
    · rw [if_neg haodk] at h
      by_cases haodb : strContains name "attention/output/dense/bias" = true
      · rw [if_pos haodb] at h
        simp only [Except.ok.injEq, Option.some.injEq] at h
        subst h
        rfl
      · rw [if_neg haodb] at h
        rcases qkv_reshape_ok_some name [r, c] hc reshape_patterns s h with
          ⟨hk, s0, s1, rest, hsh, hs⟩ | ⟨hk, hb, s0, rest, hsh, hs⟩
        · injection hsh with e1 hsh
          injection hsh with e2 hsh
          subst e1; subst e2; subst hs
          simp only [List.prod_cons, List.prod_nil, mul_one]
          rw [Nat.mul_div_cancel' hc2]
        · rcases hkb with hkb | hkb
          · rw [hk] at hkb; cases hkb
          · rw [hb] at hkb; cases hkb
  · intro name d hc s h0 hd h
    unfold _get_new_shape at h
    by_cases haodk : strContains name "attention/output/dense/kernel" = true
    · rw [if_pos haodk] at h
      simp at h
    · rw [if_neg haodk] at h
      by_cases haodb : strContains name "attention/output/dense/bias" = true
      · rw [if_pos haodb] at h
        simp only [Except.ok.injEq, Option.some.injEq] at h
        subst h
        rfl
      · rw [if_neg haodb] at h
        rcases qkv_reshape_ok_some name [d] hc reshape_patterns s h with
          ⟨hk, s0, s1, rest, hsh, hs⟩ | ⟨hk, hb, s0, rest, hsh, hs⟩
        · injection hsh with e1 hsh
          simp at hsh
        · injection hsh with e1 hsh
          subst e1; subst hs
          simp only [List.prod_cons, List.prod_nil, mul_one]
          exact Nat.mul_div_cancel' hd

/-- C5 witness: the amended theorem at the q/k/v kernel scenario, where
`768 * 12 * 64 = 768 * 768`. -/
theorem reshape_preserves_count_inst :
    ([768, 12, 64] : List Nat).prod = ([768, 768] : List Nat).prod :=
  reshape_preserves_count.1 "attention/self/query/kernel" 768 768 12 [768, 12, 64]
    (by decide) (by decide) (by decide) (Or.inl (by decide)) (by decide)

/-- C6: under the v1 rules, `bert/embeddings/word_embeddings` is rewritten to
`bert_model/word_embeddings/embeddings`; the two leading conjuncts show the
rule-by-rule compounding — the `bert` rule fires first, and the
`embeddings/word_embeddings` rule then matches inside the already-rewritten
string. -/
theorem v1_word_embeddings_rename :
    strReplace "bert/embeddings/word_embeddings" "bert" "bert_model" =
      "bert_model/embeddings/word_embeddings" ∧
    strReplace "bert_model/embeddings/word_embeddings" "embeddings/word_embeddings"
      "word_embeddings/embeddings" = "bert_model/word_embeddings/embeddings" ∧
    _bert_name_replacement false "bert/embeddings/word_embeddings" =
      "bert_model/word_embeddings/embeddings" := by decide

/-- C7: under the v2 rules,
`bert/encoder/layer_0/attention/self/query/kernel` is rewritten to
`transformer/layer_0/self_attention/query/kernel`; and whenever
`num_heads ≤ 0` no reshaping is performed — every tensor stored in
`new_variable_map` carries the unchanged shape of a source variable whose
rewritten name is its key. -/
theorem v2_rename_no_reshape :
    _bert_name_replacement true "bert/encoder/layer_0/attention/self/query/kernel" =
      "transformer/layer_0/self_attention/query/kernel" ∧
    (∀ (u : Bool) (nh : Int) (ep : Option (List String))
       (ckpt : List (String × List Nat)) (r : ConvResult), nh ≤ 0 →
       convert_names u nh ep ckpt = .ok r →
       ∀ k v, (k, v) ∈ r.new_variable_map →
         ∃ e, e ∈ ckpt ∧ excludedBy ep e.1 = false ∧
              _bert_name_replacement u e.1 = k ∧ v = e.2) := by
  refine ⟨by decide, ?_⟩
  intro u nh ep ckpt r hnh h k v hmem
  rcases convert_loop_nvm_nonpos u nh ep hnh ckpt ⟨[], []⟩ r h k v hmem with habs | hgood
  · simp at habs
  · exact hgood

/-- C7 witness: the theorem applied at the scenario checkpoint with
`num_heads = -1`. -/
theorem v2_rename_no_reshape_inst :
    ∃ e, e ∈ [("bert/encoder/layer_0/attention/self/query/kernel",
               ([768, 768] : List Nat))] ∧
      excludedBy none e.1 = false ∧
      _bert_name_replacement true e.1 =
        "transformer/layer_0/self_attention/query/kernel" ∧
      ([768, 768] : List Nat) = e.2 :=
  v2_rename_no_reshape.2 true (-1) none
    [("bert/encoder/layer_0/attention/self/query/kernel", [768, 768])]
    ⟨[("transformer/layer_0/self_attention/query/kernel", [768, 768])],
     [("bert/encoder/layer_0/attention/self/query/kernel",
       "transformer/layer_0/self_attention/query/kernel")]⟩
    (by decide) (by decide)
    "transformer/layer_0/self_attention/query/kernel" [768, 768] (by decide)

/-- C8: excluded variables are skipped wholesale — converting with a non-empty
exclusion list equals converting, with no exclusion list, the checkpoint from
which all excluded variables are removed (so an excluded variable contributes
no entry and its tensor is never consulted); a name is excluded iff it
contains at least one listed pattern as a substring; an empty or absent list
excludes nothing; and no audit key matches an exclusion pattern. -/
theorem exclusion_completeness :
    (∀ (u : Bool) (nh : Int) (ps : List String) (ckpt : List (String × List Nat)),
       ps ≠ [] →
       convert_names u nh (some ps) ckpt =
         convert_names u nh none
           (ckpt.filter (fun e => !(_has_exclude_patterns e.1 ps)))) ∧
    (∀ (name : String) (ps : List String),
       _has_exclude_patterns name ps = true ↔
         ∃ p ∈ ps, ∃ pre post, name.data = pre ++ p.data ++ post) ∧
    (∀ (u : Bool) (nh : Int) (ckpt : List (String × List Nat)),
       convert_names u nh (some []) ckpt = convert_names u nh none ckpt) ∧
    (∀ (u : Bool) (nh : Int) (ps : List String) (ckpt : List (String × List Nat))
       (r : ConvResult), convert_names u nh (some ps) ckpt = .ok r →
       ∀ o n, (o, n) ∈ r.conversion_map → _has_exclude_patterns o ps = false) := by
  refine ⟨?_, ?_, ?_, ?_⟩
  · intro u nh ps ckpt hps
    exact convert_loop_filter u nh ps hps ckpt ⟨[], []⟩
  · intro name ps
    simp only [_has_exclude_patterns, List.any_eq_true, strContains_iff]
  · intro u nh ckpt
    exact convert_loop_some_nil_eq_none u nh ckpt ⟨[], []⟩
  · intro u nh ps ckpt r h o n hmem
    rcases convert_loop_audit u nh (some ps) ckpt ⟨[], []⟩ r h o n hmem with
      habs | ⟨_, hoex, _, _⟩
    · simp at habs
    · cases ps with
      | nil => rfl
      | cons p ps2 =>
        rw [excludedBy_cons_ne_nil _ (List.cons_ne_nil p ps2) o] at hoex
        exact hoex

/-- C8 witness: the filter equivalence at the spec's Scenario 5 exclusion list
`[pooler]`. -/
theorem exclusion_completeness_inst :
    convert_names false (-1) (some ["pooler"])
      [("bert/pooler/dense/kernel", [3]), ("bert", [3])] =
    convert_names false (-1) none
      ([("bert/pooler/dense/kernel", ([3] : List Nat)), ("bert", [3])].filter
        (fun e => !(_has_exclude_patterns e.1 ["pooler"]))) :=
  exclusion_completeness.1 false (-1) ["pooler"]
    [("bert/pooler/dense/kernel", [3]), ("bert", [3])] (by decide)

/-- C9: the v1 name rewriter is not idempotent — `bert` rewrites to
`bert_model`, and rewriting its own output again yields `bert_model_model`
because the `bert` rule matches inside `bert_model`. -/
theorem rename_not_idempotent :
    _bert_name_replacement false "bert" = "bert_model" ∧
    _bert_name_replacement false (_bert_name_replacement false "bert") =
      "bert_model_model" ∧
    _bert_name_replacement false (_bert_name_replacement false "bert") ≠
      _bert_name_replacement false "bert" := by decide

/-- C10: if the exclusion list contains the empty string, every variable is
excluded and the conversion produces empty maps; the empty string does arise
from a leading, trailing, or doubled comma in the `exclude_patterns` flag. -/
theorem empty_pattern_excludes_all :
    (∀ (u : Bool) (nh : Int) (ps : List String) (ckpt : List (String × List Nat)),
       "" ∈ ps → convert_names u nh (some ps) ckpt = .ok ⟨[], []⟩) ∧
    "" ∈ pySplitComma ",pooler" ∧ "" ∈ pySplitComma "pooler," ∧
    "" ∈ pySplitComma "a,,b" ∧
    exclude_patterns_of_flag (some ",pooler") = some ["", "pooler"] := by
  refine ⟨?_, by decide, by decide, by decide, by decide⟩
  intro u nh ps ckpt hmem
  exact convert_loop_empty_pattern u nh ps hmem ckpt ⟨[], []⟩

/-- C10 witness: the theorem at a concrete exclusion list containing the empty
string. -/
theorem empty_pattern_excludes_all_inst :
    "" ∈ ["", "pooler"] ∧
    convert_names false (-1) (some ["", "pooler"]) [("bert", [3])] = .ok ⟨[], []⟩ :=
  ⟨by decide,
   empty_pattern_excludes_all.1 false (-1) ["", "pooler"] [("bert", [3])] (by decide)⟩
